import Mathlib

/-!
Shallow embedding of the `ts-switch-case` repository (src/switchCase.ts and
src/utils.ts) and proofs about its dispatch and cycle-detection logic.

Modelling conventions:
* JavaScript runtime values are modelled by the inductive `JVal`.  Numbers are
  modelled as integers (the repository's examples and tests only use integral
  numbers; no claim depends on float behaviour).  Functions are modelled as
  indices into a fixed pure environment `Env : Nat → JVal → JVal`; calling a
  function with no arguments is modelled as applying it to `vUndef` (in JS a
  parameterless call makes the parameter `undefined`).
* Strict equality `===` is modelled structurally.  For primitives and for two
  occurrences of the same modelled object this agrees with JS; distinct JS
  objects of equal shape are not distinguishable in the structural model, and
  no theorem below compares distinct objects with `===`.
* Fallible evaluation returns `Except JsErr JVal`; `JsErr.typeError` models a
  thrown TypeError (calling a non-function, reading a property of
  null/undefined) and `JsErr.noMatch` models the `throw new Error(...)`
  statements of `switchCase.ts`.
* Property reads on primitives return `undefined`, with the exceptions the
  dispatcher can observe: string and array `length` and index properties, and
  `String.prototype.match` — a function, which the object-mode scan reads as
  `c.match` on string-valued case entries and then calls.  It is modelled by
  the value `vStrMatch s` carrying its string receiver; calling it performs a
  literal-substring match (faithful for patterns without regex
  metacharacters, which is all any theorem uses; the `undefined` pattern,
  which JS reads as the empty regex, is special-cased to match).  Other
  prototype members (e.g. `charAt`, or `length`/`name` of functions) are not
  modelled; no claim reads them.
* `Object.keys` ordering follows the ECMAScript own-property-key order:
  array-index-like keys ascending numerically first, then the remaining string
  keys in insertion order.
-/

namespace TsSwitchCase

/-- JavaScript runtime values.  `vFun` carries an index into the ambient
function environment; `vStrMatch s` is the function value read from the
`match` property of the primitive string `s` (`String.prototype.match`,
carrying its receiver, since calling `c.match(value)` binds `this = c`). -/
inductive JVal where
  | vUndef : JVal
  | vNull : JVal
  | vBool : Bool → JVal
  | vNum : Int → JVal
  | vStr : String → JVal
  | vFun : Nat → JVal
  | vStrMatch : String → JVal
  | vObj : List (String × JVal) → JVal
  | vArr : List JVal → JVal

/-- Errors thrown by the modelled code: the explicit `throw new Error` sites of
`switchCase.ts` (`noMatch`) and implicit JS TypeErrors (`typeError`). -/
inductive JsErr where
  | noMatch : String → JsErr
  | typeError : String → JsErr


/-- A pure environment interpreting function indices.  Handlers and predicates
are assumed pure and terminating (spec §5). -/
def Env : Type := Nat → JVal → JVal

/-- `typeof v === "function"`. -/
def isFun : JVal → Bool
  | .vFun _ => true
  | .vStrMatch _ => true
  | _ => false

/-- `Array.isArray(v)`. -/
def isArr : JVal → Bool
  | .vArr _ => true
  | _ => false

/-- `typeof v === "object"` (true for plain objects, arrays and `null`). -/
def typeofObject : JVal → Bool
  | .vObj _ => true
  | .vArr _ => true
  | .vNull => true
  | _ => false

/-- A "mapping" in the spec's sense: a plain (non-array, non-null) object. -/
def isMapping : JVal → Bool
  | .vObj _ => true
  | _ => false

/-- Test `v === undefined`. -/
def isUndef : JVal → Bool
  | .vUndef => true
  | _ => false

/-- JS truthiness. -/
def truthy : JVal → Bool
  | .vUndef => false
  | .vNull => false
  | .vBool b => b
  | .vNum n => n != 0
  | .vStr s => s.length != 0
  | _ => true

mutual
/-- Structural boolean equality on `JVal`, modelling JS strict equality `===`
(see the module comment on object identity). -/
def beqJVal : JVal → JVal → Bool
  | .vUndef, .vUndef => true
  | .vNull, .vNull => true
  | .vBool a, .vBool b => a == b
  | .vNum a, .vNum b => a == b
  | .vStr a, .vStr b => a == b
  | .vFun i, .vFun j => i == j
  | .vStrMatch _, .vStrMatch _ => true
  | .vObj fs, .vObj gs => beqFields fs gs
  | .vArr xs, .vArr ys => beqElems xs ys
  | _, _ => false

/-- Field-list equality component of `beqJVal`. -/
def beqFields : List (String × JVal) → List (String × JVal) → Bool
  | [], [] => true
  | (k, v) :: fs, (k₂, v₂) :: gs => k == k₂ && beqJVal v v₂ && beqFields fs gs
  | _, _ => false

/-- Element-list equality component of `beqJVal`. -/
def beqElems : List JVal → List JVal → Bool
  | [], [] => true
  | x :: xs, y :: ys => beqJVal x y && beqElems xs ys
  | _, _ => false
end

/-- JS strict equality `===`. -/
def strictEq (a b : JVal) : Bool := beqJVal a b

mutual
/-- `String(v)`: JS abstract ToString.  Function source text is approximated
by the constant "function". -/
def jsToString : JVal → String
  | .vUndef => "undefined"
  | .vNull => "null"
  | .vBool b => if b then "true" else "false"
  | .vNum n => toString n
  | .vStr s => s
  | .vFun _ => "function"
  | .vStrMatch _ => "function"
  | .vObj _ => "[object Object]"
  | .vArr elems => arrJoin elems

/-- `Array.prototype.toString`: elements joined by ",", with null/undefined
rendered empty. -/
def arrJoin : List JVal → String
  | [] => ""
  | [v] => match v with
    | .vUndef => ""
    | .vNull => ""
    | v' => jsToString v'
  | v :: rest =>
    (match v with
      | .vUndef => ""
      | .vNull => ""
      | v' => jsToString v') ++ "," ++ arrJoin rest
end

/-- Whether `pat` occurs at the start of `l`. -/
def subAt (pat : List Char) : List Char → Bool
  | [] => pat.isEmpty
  | c :: rest =>
    match pat with
    | [] => true
    | p :: ps => p == c && subAt ps rest

/-- Whether `pat` occurs anywhere in `l` (literal substring search). -/
def subIn (pat : List Char) : List Char → Bool
  | [] => pat.isEmpty
  | c :: rest => subAt pat (c :: rest) || subIn pat rest

/-- `s.match(arg)` (`String.prototype.match` with receiver `s`): the argument
is converted to a pattern via ToString — modelled as a literal substring
search — and the result is a (truthy) match array on success, else `null`.
JS converts an `undefined` argument to the empty regex, which always
matches. -/
def jsStrMatch (s : String) (arg : JVal) : JVal :=
  match arg with
  | .vUndef => .vArr [.vStr ""]
  | a =>
    if subIn (jsToString a).data s.data then .vArr [.vStr (jsToString a)]
    else .vNull

/-- Calling a value as a function: `f(arg)`.  A non-function throws. -/
def callFun (env : Env) : JVal → JVal → Except JsErr JVal
  | .vFun i, arg => .ok (env i arg)
  | .vStrMatch s, arg => .ok (jsStrMatch s arg)
  | _, _ => .error (.typeError "is not a function")

mutual
/-- `JSON.stringify(v)` as it appears interpolated into a template literal:
`JSON.stringify(undefined)` and functions give `undefined`, which the template
renders as the text "undefined".  String escaping is not modelled (no claim
uses strings needing escapes). -/
def jsonStringify : JVal → String
  | .vUndef => "undefined"
  | .vFun _ => "undefined"
  | .vStrMatch _ => "undefined"
  | .vNull => "null"
  | .vBool b => if b then "true" else "false"
  | .vNum n => toString n
  | .vStr s => "\"" ++ s ++ "\""
  | .vObj fields => "\x7b" ++ String.intercalate "," (jsonFieldParts fields) ++ "\x7d"
  | .vArr elems => "[" ++ String.intercalate "," (jsonElemParts elems) ++ "]"

/-- Object properties rendered by `JSON.stringify` (undefined- and
function-valued properties are skipped). -/
def jsonFieldParts : List (String × JVal) → List String
  | [] => []
  | (k, v) :: rest =>
    match v with
    | .vUndef => jsonFieldParts rest
    | .vFun _ => jsonFieldParts rest
    | .vStrMatch _ => jsonFieldParts rest
    | v' => ("\"" ++ k ++ "\":" ++ jsonStringify v') :: jsonFieldParts rest

/-- Array elements rendered by `JSON.stringify` (undefined and functions
become null). -/
def jsonElemParts : List JVal → List String
  | [] => []
  | v :: rest =>
    (match v with
      | .vUndef => "null"
      | .vFun _ => "null"
      | .vStrMatch _ => "null"
      | v' => jsonStringify v') :: jsonElemParts rest
end

/-- Numeric value of a digit-string key. -/
def keyNum (s : String) : Nat :=
  s.data.foldl (fun n c => n * 10 + (c.toNat - 48)) 0

/-- Canonical array-index keys per ECMAScript: a digit string with no leading
zero (except "0") whose value is below 2^32 - 1. -/
def isArrayIndexKey (s : String) : Bool :=
  s.length > 0 && s.data.all Char.isDigit
    && (s == "0" || s.data.headD '0' != '0')
    && keyNum s < 4294967295

/-- Insert a key into a list sorted by numeric value. -/
def insertByNum (k : String) : List String → List String
  | [] => [k]
  | x :: xs => if keyNum k ≤ keyNum x then k :: x :: xs else x :: insertByNum k xs

/-- Insertion sort of keys by numeric value. -/
def sortKeysByNum : List String → List String
  | [] => []
  | x :: xs => insertByNum x (sortKeysByNum xs)

/-- `Object.keys` order over an object's fields (stored in insertion order):
array-index-like keys ascending numerically, then the rest in insertion
order. -/
def orderedKeys (fields : List (String × JVal)) : List String :=
  let ks := fields.map Prod.fst
  sortKeysByNum (ks.filter isArrayIndexKey) ++ ks.filter (fun k => !(isArrayIndexKey k))

/-- First field with the given key, `undefined` when absent (as in JS, an
explicitly-undefined property and an absent one read the same). -/
def lookupField (fields : List (String × JVal)) (k : String) : JVal :=
  ((fields.find? (fun p => p.1 == k)).map Prod.snd).getD (.vUndef)

/-- Property read `v[k]`: throws on null/undefined, reads object fields,
models array/string `length` and index properties, and yields `undefined` on
other primitives. -/
def getIndex : JVal → String → Except JsErr JVal
  | .vUndef, _ => .error (.typeError "Cannot read properties of undefined")
  | .vNull, _ => .error (.typeError "Cannot read properties of null")
  | .vObj fields, k => .ok (lookupField fields k)
  | .vArr elems, k =>
    .ok (if k == "length" then .vNum elems.length
      else if isArrayIndexKey k then elems.getD (keyNum k) .vUndef
      else .vUndef)
  | .vStr s, k =>
    .ok (if k == "length" then .vNum s.length
      else if isArrayIndexKey k then
        (match s.data.get? (keyNum k) with
          | some c => .vStr (String.mk [c])
          | none => .vUndef)
      else if k == "match" then .vStrMatch s
      else .vUndef)
  | _, _ => .ok (.vUndef)

/-- `Object.keys(v)` for the values that can reach the object-mode scan. -/
def objectKeysOf : JVal → List String
  | .vObj fields => orderedKeys fields
  | _ => []

/-! ## The dispatcher (`switchCase` in src/switchCase.ts)

The implementation body of `switchCase` classifies the call by the shape of
the second argument and dispatches into one of four branches.  Each branch is
embedded as its own definition and the top-level `switchCase` selects among
them exactly as the source's `if` chain does.  Optional arguments are
modelled as `vUndef` when absent, as in JS. -/

/-- The four implementation branches of `switchCase`, in the order the source
tests for them. -/
inductive CallMode where
  | builderMode : CallMode
  | sequenceMode : CallMode
  | objectMode : CallMode
  | discriminatorMode : CallMode
deriving DecidableEq

/-- The branch `switchCase` takes, determined (like the source) solely by the
second argument: `undefined` → builder, `Array.isArray` → array-based,
`typeof === "object"` → object-based, otherwise discriminated-union mode. -/
def classifyCall (arg2 : JVal) : CallMode :=
  if isUndef arg2 then .builderMode
  else if isArr arg2 then .sequenceMode
  else if typeofObject arg2 then .objectMode
  else .discriminatorMode

/-- The `for (const { match, handler } of cases)` loop of the array-based
branch: destructure the entry, call `match(value)` (a TypeError when `match`
is not callable), and on a truthy result resolve the handler (invoke with the
subject when callable, else return it literally).  `none` means the loop fell
through. -/
def arrayScan (env : Env) (value : JVal) : List JVal → Except JsErr (Option JVal)
  | [] => .ok none
  | entry :: rest => do
    let m ← getIndex entry "match"
    let h ← getIndex entry "handler"
    let r ← callFun env m value
    if truthy r then
      if isFun h then do
        let v ← callFun env h value
        pure (some v)
      else pure (some h)
    else arrayScan env value rest

/-- The array-based ("boolean condition") branch of `switchCase`: scan the
entries, then `defaultFn` (a truthiness test, as in the source) or the
NoMatch error. -/
def arrayModeEval (env : Env) (value cases defaultFn : JVal) : Except JsErr JVal := do
  let r ← arrayScan env value (match cases with | .vArr elems => elems | _ => [])
  match r with
  | some v => pure v
  | none =>
    if truthy defaultFn then callFun env defaultFn value
    else .error (.noMatch ("No matching case for value: " ++ jsonStringify value))

/-- The `for (const key of Object.keys(cases))` loop of the object-based
branch: skip function-valued entries, read `c.match` (a TypeError when `c` is
null/undefined), test it (`c.match(value)` when callable, else
`c.match === value`), and on success resolve `c.handler` (invoke with the
subject when callable, else return it literally). -/
def scanCases (env : Env) (value cases : JVal) : List String → Except JsErr (Option JVal)
  | [] => .ok none
  | key :: rest => do
    let c ← getIndex cases key
    if isFun c then scanCases env value cases rest
    else do
      let m ← getIndex c "match"
      let matched ←
        if isFun m then do
          let r ← callFun env m value
          pure (truthy r)
        else pure (strictEq m value)
      if matched then do
        let h ← getIndex c "handler"
        if isFun h then do
          let v ← callFun env h value
          pure (some v)
        else pure (some h)
      else scanCases env value cases rest

/-- The object-based ("literal type or complex predicate") branch of
`switchCase`: first the literal fast path `cases[String(value)]` (taken when
the read value is not `undefined`; a function is invoked with no arguments,
anything else is returned literally), then the predicate scan, then
`defaultFn` or the NoMatch error. -/
def objectModeEval (env : Env) (value cases defaultFn : JVal) : Except JsErr JVal := do
  let literalHandler ← getIndex cases (jsToString value)
  match literalHandler with
  | .vUndef => do
    let r ← scanCases env value cases (objectKeysOf cases)
    match r with
    | some v => pure v
    | none =>
      if truthy defaultFn then callFun env defaultFn value
      else .error (.noMatch ("No matching case for value: " ++ jsonStringify value))
  | lh =>
    if isFun lh then callFun env lh .vUndef
    else pure lh

/-- The discriminated-union branch of `switchCase`: compute
`String(value[discriminator])`, look it up in `cases` (present means not
`undefined`), resolve the handler with the full subject when callable, else
literally; otherwise `defaultHandler` (truthiness test) or the
discriminator-form NoMatch error. -/
def discriminatorModeEval (env : Env)
    (value discriminator cases defaultHandler : JVal) : Except JsErr JVal := do
  let dvRaw ← getIndex value (jsToString discriminator)
  let discriminatorValue := jsToString dvRaw
  let handlerOrValue ← getIndex cases discriminatorValue
  match handlerOrValue with
  | .vUndef =>
    if truthy defaultHandler then callFun env defaultHandler value
    else .error (.noMatch ("No matching case for " ++ jsToString discriminator
      ++ ": " ++ discriminatorValue))
  | hv =>
    if isFun hv then callFun env hv value
    else pure hv

/-! ## The chainable builder -/

/-- The state captured by the builder closure: the `cases` array and the
`defaultFn` variable (`vUndef` until `default` is called, as in JS). -/
structure BuilderState where
  cases : List (JVal × JVal)
  defaultFn : JVal

/-- The builder created when `switchCase` is called with only a subject. -/
def builderInit : BuilderState := ⟨[], .vUndef⟩

/-- `builder.case(match, handler)`: pushes an entry and returns the same
builder. -/
def builderCase (s : BuilderState) (m h : JVal) : BuilderState :=
  { s with cases := s.cases ++ [(m, h)] }

/-- `builder.default(handler)`: overwrites the default handler and returns
the same builder. -/
def builderDefault (s : BuilderState) (h : JVal) : BuilderState :=
  { s with defaultFn := h }

/-- The `for (const { match, handler } of cases)` loop of `run()`: the match
is `match(value)` when callable, else `match === value`; a truthy match
resolves the handler (invoked with the subject when callable, else returned
literally). -/
def builderRunLoop (env : Env) (value : JVal) : List (JVal × JVal) → Except JsErr (Option JVal)
  | [] => .ok none
  | (m, h) :: rest => do
    let matched ←
      if isFun m then do
        let r ← callFun env m value
        pure (truthy r)
      else pure (strictEq m value)
    if matched then
      if isFun h then do
        let v ← callFun env h value
        pure (some v)
      else pure (some h)
    else builderRunLoop env value rest

/-- `builder.run()`: evaluates the accumulated cases, then `defaultFn`
(truthiness test) or the NoMatch error.  The body only reads the captured
state, so the state component of the result is returned unchanged. -/
def builderRun (env : Env) (value : JVal) (s : BuilderState) :
    Except JsErr JVal × BuilderState :=
  (match builderRunLoop env value s.cases with
    | .ok (some v) => .ok v
    | .ok none =>
      if truthy s.defaultFn then callFun env s.defaultFn value
      else .error (.noMatch ("No matching case for value: " ++ jsonStringify value))
    | .error e => .error e,
   s)

/-- `builder.exhaustive()`: `return this.run()`. -/
def builderExhaustive (env : Env) (value : JVal) (s : BuilderState) :
    Except JsErr JVal × BuilderState :=
  builderRun env value s

/-- The implementation body of `switchCase(value, discriminatorOrCases?,
casesOrDefault?, defaultHandler?)`.  Returns the fresh builder when called
with only the subject (`.inl`), otherwise the dispatched result (`.inr`). -/
def switchCase (env : Env) (value arg2 arg3 arg4 : JVal) :
    Except JsErr (BuilderState ⊕ JVal) :=
  if isUndef arg2 then .ok (.inl builderInit)
  else if isArr arg2 then (arrayModeEval env value arg2 arg3).map .inr
  else if typeofObject arg2 then (objectModeEval env value arg2 arg3).map .inr
  else (discriminatorModeEval env value arg2 arg3 arg4).map .inr

/-! ## The cycle guard (`isCyclic` in src/utils.ts)

`isCyclic` distinguishes object *identities* (its `seen` is a `WeakSet`), so
it is embedded over an explicit heap: objects are addresses into a store of
field lists, and a traversed value is either a primitive (any non-object JS
value, which can never cycle) or a reference.  The `WeakSet` is a list of
addresses threaded through the traversal exactly as the JS `seen` parameter
is shared by reference across sibling recursive calls.  `logCyclicError` is a
pure diagnostic (it must not throw or alter control flow), so only the number
of emissions is tracked.  Field lists are stored in `for...in` enumeration
order.  Recursion is fuelled; the JS function always terminates because every
object is added to `seen` before its properties are traversed, and every
theorem below supplies enough fuel for its structure. -/

/-- A traversed value: a primitive or a reference to a heap object. -/
inductive HVal where
  | prim : HVal
  | ref : Nat → HVal
deriving DecidableEq

/-- A heap: addresses mapped to field lists in enumeration order. -/
abbrev Heap : Type := List (Nat × List (String × HVal))

/-- The fields of the object at an address (unknown addresses read as an
object with no enumerable properties). -/
def lookupObj (h : Heap) (a : Nat) : List (String × HVal) :=
  ((h.find? (fun p => p.1 == a)).map Prod.snd).getD []

/-- The `for (const key in obj)` loop body of `isCyclic`, parametrized by the
recursive call `f`: recurse into each property value with the shared `seen`
and the path extended by the property name, returning true as soon as a
recursive call does (short-circuit), and summing diagnostic emissions. -/
def isCyclicFields (f : HVal → List Nat → List String → Option (Bool × List Nat × Nat)) :
    List (String × HVal) → List Nat → List String → Option (Bool × List Nat × Nat)
  | [], seen, _ => some (false, seen, 0)
  | (k, v) :: rest, seen, path => do
    let (b, seen', logs) ← f v seen (path ++ [k])
    if b then some (true, seen', logs)
    else do
      let (b₂, seen₂, logs₂) ← isCyclicFields f rest seen' path
      some (b₂, seen₂, logs + logs₂)

/-- `isCyclic(obj, seen, path)`: primitives return false; a reference already
in `seen` logs once and returns true; otherwise the reference is added to
`seen` and the properties are traversed in order.  Returns
`(result, seen-after, number-of-log-emissions)`; `none` is fuel exhaustion
(never reached with the fuel the theorems supply — only nesting consumes
fuel, as only nesting consumes stack in the JS original). -/
def isCyclicAux (h : Heap) : Nat → HVal → List Nat → List String →
    Option (Bool × List Nat × Nat)
  | 0, _, _, _ => none
  | fuel + 1, v, seen, path =>
    match v with
    | .prim => some (false, seen, 0)
    | .ref a =>
      if a ∈ seen then some (true, seen, 1)
      else isCyclicFields (isCyclicAux h fuel) (lookupObj h a) (a :: seen) path

/-- Top-level `isCyclic(obj)` with the default arguments
`seen = new WeakSet()`, `path = ["root"]`; result paired with the number of
diagnostics emitted. -/
def isCyclic (h : Heap) (fuel : Nat) (v : HVal) : Option (Bool × Nat) :=
  (isCyclicAux h fuel v [] ["root"]).map (fun r => (r.1, r.2.2))

/-- References occurring in a field list. -/
def refsOf (fields : List (String × HVal)) : List Nat :=
  fields.filterMap (fun p => match p.2 with | .ref a => some a | _ => none)

/-- Addresses directly referenced by the object at `a`. -/
def succs (h : Heap) (a : Nat) : List Nat := refsOf (lookupObj h a)

/-- Addresses reachable in at most `n` further steps from a frontier:
used to state (decidably, for concrete heaps) that no object is reachable
from itself. -/
def reachSet (h : Heap) : Nat → List Nat → List Nat
  | 0, s => s
  | n + 1, s => reachSet h n ((s ++ s.flatMap (succs h)).dedup)

/-! ### Tree-shaped structures

A nested structure with no shared references is exactly the image of a tree.
`compileTree` lays such a tree out in a heap, giving every node a distinct
fresh address, so that "acyclic structure in which each object is reachable
along only one path" can be quantified over. -/

/-- A tree-shaped nested JS structure: a primitive leaf or an object node
with labelled children. -/
inductive JTree where
  | leaf : JTree
  | node : List (String × JTree) → JTree

mutual
/-- Lay a tree out in a heap starting at fresh address `n`: returns the
traversable value, the heap objects created, and the next fresh address. -/
def compileTree : JTree → Nat → HVal × Heap × Nat
  | .leaf, n => (.prim, [], n)
  | .node cs, n =>
    let r := compileForest cs (n + 1)
    (.ref n, (n, r.1) :: r.2.1, r.2.2)

/-- Lay out the children of a node. -/
def compileForest : List (String × JTree) → Nat → List (String × HVal) × Heap × Nat
  | [], n => ([], [], n)
  | (k, t) :: rest, n =>
    let r₁ := compileTree t n
    let r₂ := compileForest rest r₁.2.2
    ((k, r₁.1) :: r₂.1, r₁.2.1 ++ r₂.2.1, r₂.2.2)
end

mutual
/-- Nesting depth of a tree (recursion depth `isCyclic` needs for it). -/
def treeDepth : JTree → Nat
  | .leaf => 0
  | .node cs => forestDepth cs + 1

/-- Maximum depth over a node's children. -/
def forestDepth : List (String × JTree) → Nat
  | [] => 0
  | (_, t) :: rest => max (treeDepth t) (forestDepth rest)
end

/-! ## Concrete instances used by witnesses and counterexamples -/

/-- An environment in which every function returns `undefined`. -/
def envConstUndef : Env := fun _ _ => (.vUndef)

/-- An environment in which every function returns `true` (an
always-matching predicate). -/
def envAlwaysTrue : Env := fun _ _ => .vBool true

/-- An environment whose functions return a value recording which function
was called and with which argument — distinct calls give distinct results. -/
def envMark : Env := fun i v => .vArr [.vNum i, v]

/-- An environment in which function 1 returns the string "handled" and every
other function behaves as an always-true predicate. -/
def envHandled : Env := fun i _ => if i = 1 then .vStr "handled" else .vBool true

/-- A `{match, handler}` predicate pair whose handler (function 1) would
produce "handled" under `envHandled`. -/
def pairEntry : JVal := .vObj [("match", .vFun 0), ("handler", .vFun 1)]

/-- A diamond-shaped acyclic heap: the root object's two properties reference
the same shared child object (`const x = ...; const root = {a: x, b: x}`). -/
def diamondHeap : Heap := [(0, [("a", .ref 1), ("b", .ref 1)]), (1, [("c", .prim)])]

/-! ## Helper lemmas -/

/-- Reading a property of a plain object is the (total) field lookup. -/
theorem getIndex_obj (fields : List (String × JVal)) (k : String) :
    getIndex (JVal.vObj fields) k = .ok (lookupField fields k) := rfl

/-- Bind on a successful `Except` computation. -/
theorem except_bind_ok {α β : Type} (a : α) (f : α → Except JsErr β) :
    (Except.ok a : Except JsErr α) >>= f = f a := rfl

/-- Bind on a failed `Except` computation propagates the error. -/
theorem except_bind_error {α β : Type} (e : JsErr) (f : α → Except JsErr β) :
    (Except.error e : Except JsErr α) >>= f = (Except.error e : Except JsErr β) := rfl

/-- Calling a non-callable value throws a TypeError. -/
theorem callFun_not_fun (env : Env) (f v : JVal) (h : isFun f = false) :
    callFun env f v = .error (.typeError "is not a function") := by
  cases f <;> simp_all [callFun, isFun]

/-- A prefix of the array-mode scan that falls through contributes nothing:
the scan of the whole list is the scan of the remainder. -/
theorem arrayScan_append (env : Env) (value : JVal) (pre post : List JVal)
    (h : arrayScan env value pre = .ok none) :
    arrayScan env value (pre ++ post) = arrayScan env value post := by
  induction pre with
  | nil => simp
  | cons entry rest ih =>
    rcases hm : getIndex entry "match" with e | m
    · simp [arrayScan, hm, Bind.bind, Except.bind] at h
    · rcases hh : getIndex entry "handler" with e | hv
      · simp [arrayScan, hm, hh, Bind.bind, Except.bind] at h
      · rcases hc : callFun env m value with e | r
        · simp [arrayScan, hm, hh, hc, Bind.bind, Except.bind] at h
        · by_cases ht : truthy r = true
          · simp only [arrayScan, hm, hh, hc, Bind.bind, Except.bind, ht,
              if_true] at h
            split at h
            · rcases hcv : callFun env hv value with e | v <;>
                simp [hcv, pure, Except.pure] at h
            · simp [pure, Except.pure] at h
          · simp only [Bool.not_eq_true] at ht
            simp only [arrayScan, hm, hh, hc, Bind.bind, Except.bind, ht,
              Bool.false_eq_true, if_false] at h
            simp only [List.cons_append, arrayScan, hm, hh, hc, Bind.bind,
              Except.bind, ht, Bool.false_eq_true, if_false]
            exact ih h

/-- If every entry before `entry` falls through and `entry`'s match call is
truthy, the array-mode result is the resolution of `entry`'s handler. -/
theorem arrayModeEval_first_match (env : Env) (value defaultFn entry m hh r : JVal)
    (pre post : List JVal)
    (hpre : arrayScan env value pre = .ok none)
    (hm : getIndex entry "match" = .ok m)
    (hhh : getIndex entry "handler" = .ok hh)
    (hc : callFun env m value = .ok r)
    (ht : truthy r = true) :
    arrayModeEval env value (JVal.vArr (pre ++ entry :: post)) defaultFn
      = if isFun hh then callFun env hh value else Except.ok hh := by
  have hs := arrayScan_append env value pre (entry :: post) hpre
  have hscan : arrayScan env value (entry :: post)
      = if isFun hh then Except.map some (callFun env hh value)
        else Except.ok (some hh) := by
    by_cases hf : isFun hh = true
    · simp only [arrayScan, hm, hhh, hc, Bind.bind, Except.bind, ht, if_true, hf]
      rcases hcv : callFun env hh value with e | v <;>
        simp [hcv, Except.map, pure, Except.pure]
    · simp only [Bool.not_eq_true] at hf
      simp [arrayScan, hm, hhh, hc, Bind.bind, Except.bind, ht, hf, pure,
        Except.pure]
  by_cases hf : isFun hh = true
  · rcases hcv : callFun env hh value with e | v
    · cases hh <;> simp_all [isFun, callFun]
    · simp [arrayModeEval, hs, hscan, hf, hcv, Except.map, Bind.bind,
        Except.bind, pure, Except.pure]
  · simp only [Bool.not_eq_true] at hf
    simp [arrayModeEval, hs, hscan, hf, Bind.bind, Except.bind, pure,
      Except.pure]

/-- When no key of an object's fields is array-index-like, `Object.keys`
order is exactly insertion order. -/
theorem orderedKeys_no_index (fields : List (String × JVal))
    (h : ∀ k ∈ fields.map Prod.fst, isArrayIndexKey k = false) :
    orderedKeys fields = fields.map Prod.fst := by
  have h1 : (fields.map Prod.fst).filter isArrayIndexKey = [] := by
    simp only [List.filter_eq_nil_iff]
    intro a ha
    simp [h a ha]
  have h2 : (fields.map Prod.fst).filter (fun k => !(isArrayIndexKey k))
      = fields.map Prod.fst :=
    List.filter_eq_self.mpr (by intro a ha; simp [h a ha])
  simp only [orderedKeys, h1, h2, sortKeysByNum, List.nil_append]

/-- The handler-resolution tail of an object-mode scan step never reports
"fell through": it yields a result or an error. -/
theorem scanResolve_not_none (env : Env) (value c : JVal) :
    (do
      let h ← getIndex c "handler"
      if isFun h then do
        let v ← callFun env h value
        pure (some v)
      else pure (some h) : Except JsErr (Option JVal)) ≠ .ok none := by
  rcases hhh : getIndex c "handler" with e | hh
  · simp [hhh, Bind.bind, Except.bind]
  · by_cases hhf : isFun hh = true
    · rcases hcv : callFun env hh value with e | v <;>
        simp [hhh, hhf, hcv, Bind.bind, Except.bind, pure, Except.pure]
    · simp only [Bool.not_eq_true] at hhf
      simp [hhh, hhf, Bind.bind, Except.bind, pure, Except.pure]

/-- A prefix of the object-mode key scan that falls through contributes
nothing: the scan of the whole key list is the scan of the remainder. -/
theorem scanCases_append (env : Env) (value cases : JVal) (ks1 ks2 : List String)
    (h : scanCases env value cases ks1 = .ok none) :
    scanCases env value cases (ks1 ++ ks2) = scanCases env value cases ks2 := by
  induction ks1 with
  | nil => simp
  | cons key rest ih =>
    rcases hck : getIndex cases key with e | c
    · simp only [List.cons_append, scanCases, hck, except_bind_error] at h
      exact Except.noConfusion h
    · simp only [List.cons_append, scanCases, hck, except_bind_ok] at h ⊢
      by_cases hcf : isFun c = true
      · rw [if_pos hcf] at h ⊢
        exact ih h
      · rw [if_neg hcf] at h ⊢
        rcases hm : getIndex c "match" with e | m
        · simp only [hm, except_bind_error] at h
          exact Except.noConfusion h
        · simp only [hm, except_bind_ok] at h ⊢
          by_cases hmf : isFun m = true
          · rw [if_pos hmf] at h ⊢
            rcases hcall : callFun env m value with e | r
            · simp only [hcall, except_bind_error] at h
              exact Except.noConfusion h
            · simp only [hcall, except_bind_ok,
                show (pure (truthy r) : Except JsErr Bool)
                  = .ok (truthy r) from rfl] at h ⊢
              by_cases ht : truthy r = true
              · rw [if_pos ht] at h
                exact absurd h (scanResolve_not_none env value c)
              · rw [if_neg ht] at h ⊢
                exact ih h
          · rw [if_neg hmf] at h ⊢
            simp only [show (pure (strictEq m value) : Except JsErr Bool)
                = .ok (strictEq m value) from rfl, except_bind_ok] at h ⊢
            by_cases hse : strictEq m value = true
            · rw [if_pos hse] at h
              exact absurd h (scanResolve_not_none env value c)
            · rw [if_neg hse] at h ⊢
              exact ih h

/-- An object-mode scan step whose entry's predicate matches resolves the
entry's handler. -/
theorem scanCases_cons_match (env : Env) (value cases : JVal) (k : String)
    (rest : List String) (c m hh r : JVal)
    (hck : getIndex cases k = .ok c) (hcf : isFun c = false)
    (hm : getIndex c "match" = .ok m) (hmf : isFun m = true)
    (hc : callFun env m value = .ok r) (ht : truthy r = true)
    (hhh : getIndex c "handler" = .ok hh) :
    scanCases env value cases (k :: rest)
      = if isFun hh then Except.map some (callFun env hh value)
        else .ok (some hh) := by
  simp only [scanCases]
  rw [hck, except_bind_ok, if_neg (by simp [hcf]), hm, except_bind_ok,
    if_pos hmf, hc, except_bind_ok, ht,
    show (pure true : Except JsErr Bool) = .ok true from rfl, except_bind_ok,
    if_pos rfl, hhh, except_bind_ok]
  by_cases hhf : isFun hh = true
  · rw [if_pos hhf, if_pos hhf]
    rcases hcv : callFun env hh value with e | v <;>
      simp [hcv, Except.map, Bind.bind, Except.bind, pure, Except.pure]
  · rw [if_neg hhf, if_neg hhf]
    rfl

/-- If the literal fast path misses and every key before `k` falls through,
the object-mode result is the resolution of `k`'s matching entry. -/
theorem objectModeEval_first_match (env : Env) (value defaultFn : JVal)
    (fields : List (String × JVal)) (ks1 : List String) (k : String)
    (ks2 : List String) (c m hh r : JVal)
    (hfast : lookupField fields (jsToString value) = .vUndef)
    (hkeys : orderedKeys fields = ks1 ++ k :: ks2)
    (hpre : scanCases env value (.vObj fields) ks1 = .ok none)
    (hck : lookupField fields k = c) (hcf : isFun c = false)
    (hm : getIndex c "match" = .ok m) (hmf : isFun m = true)
    (hc : callFun env m value = .ok r) (ht : truthy r = true)
    (hhh : getIndex c "handler" = .ok hh) :
    objectModeEval env value (JVal.vObj fields) defaultFn
      = if isFun hh then callFun env hh value else .ok hh := by
  have hscan := scanCases_append env value (.vObj fields) ks1 (k :: ks2) hpre
  have hcons := scanCases_cons_match env value (.vObj fields) k ks2 c m hh r
    (by rw [getIndex_obj, hck]) hcf hm hmf hc ht hhh
  simp only [objectModeEval, getIndex_obj]
  rw [hfast, except_bind_ok]
  show (do
    let r ← scanCases env value (JVal.vObj fields) (objectKeysOf (JVal.vObj fields))
    match r with
    | some v => pure v
    | none =>
      if truthy defaultFn then callFun env defaultFn value
      else .error (.noMatch ("No matching case for value: " ++ jsonStringify value))
    : Except JsErr JVal) = _
  rw [show objectKeysOf (JVal.vObj fields) = orderedKeys fields from rfl, hkeys,
    hscan, hcons]
  by_cases hhf : isFun hh = true
  · rw [if_pos hhf, if_pos hhf]
    rcases hcv : callFun env hh value with e | v <;>
      simp [hcv, Except.map, Bind.bind, Except.bind, pure, Except.pure]
  · rw [if_neg hhf, if_neg hhf]
    rfl

/-- When the discriminator value's key reads as `undefined` in the case map,
the discriminator-mode result is the default/NoMatch tail (with the
discriminator-form message). -/
theorem discriminatorModeEval_no_match (env : Env) (value dk defaultHandler : JVal)
    (cfields : List (String × JVal)) (dvRaw : JVal)
    (hv : getIndex value (jsToString dk) = .ok dvRaw)
    (hlk : lookupField cfields (jsToString dvRaw) = JVal.vUndef) :
    discriminatorModeEval env value dk (JVal.vObj cfields) defaultHandler
      = if truthy defaultHandler then callFun env defaultHandler value
        else .error (.noMatch ("No matching case for " ++ jsToString dk
          ++ ": " ++ jsToString dvRaw)) := by
  simp only [discriminatorModeEval]
  rw [hv, except_bind_ok, getIndex_obj, hlk, except_bind_ok]

/-- Bind on a present `Option` computation. -/
theorem option_bind_some {α β : Type} (a : α) (f : α → Option β) :
    (Option.some a >>= f) = f a := rfl

mutual
/-- Compilation only moves the fresh-address counter forward (tree). -/
theorem compileTree_le : ∀ (t : JTree) (n : Nat), n ≤ (compileTree t n).2.2
  | .leaf, n => Nat.le_refl n
  | .node cs, n => Nat.le_trans (Nat.le_succ n) (compileForest_le cs (n + 1))

/-- Compilation only moves the fresh-address counter forward (forest). -/
theorem compileForest_le : ∀ (cs : List (String × JTree)) (n : Nat),
    n ≤ (compileForest cs n).2.2
  | [], n => Nat.le_refl n
  | (_, t) :: rest, n =>
    Nat.le_trans (compileTree_le t n) (compileForest_le rest ((compileTree t n).2.2))
end

mutual
/-- Every heap object created by compiling a tree has its address in the
fresh range `[n, next)`. -/
theorem compileTree_range : ∀ (t : JTree) (n : Nat) (p : Nat × List (String × HVal)),
    p ∈ (compileTree t n).2.1 → n ≤ p.1 ∧ p.1 < (compileTree t n).2.2
  | .leaf, n, p => by
    intro hp
    simp [compileTree] at hp
  | .node cs, n, p => by
    intro hp
    have hle := compileForest_le cs (n + 1)
    have hp' : p = (n, (compileForest cs (n + 1)).1) ∨
        p ∈ (compileForest cs (n + 1)).2.1 := List.mem_cons.mp hp
    rcases hp' with he | hm
    · rw [he]
      exact ⟨Nat.le_refl n, Nat.lt_of_lt_of_le (Nat.lt_succ_self n) hle⟩
    · have hr := compileForest_range cs (n + 1) p hm
      exact ⟨Nat.le_trans (Nat.le_succ n) hr.1, hr.2⟩

/-- Every heap object created by compiling a forest has its address in the
fresh range `[n, next)`. -/
theorem compileForest_range : ∀ (cs : List (String × JTree)) (n : Nat)
    (p : Nat × List (String × HVal)),
    p ∈ (compileForest cs n).2.1 → n ≤ p.1 ∧ p.1 < (compileForest cs n).2.2
  | [], n, p => by
    intro hp
    simp [compileForest] at hp
  | (_, t) :: rest, n, p => by
    intro hp
    have hp' : p ∈ (compileTree t n).2.1 ∨
        p ∈ (compileForest rest ((compileTree t n).2.2)).2.1 := List.mem_append.mp hp
    rcases hp' with h1 | h2
    · have hr := compileTree_range t n p h1
      exact ⟨hr.1, Nat.lt_of_lt_of_le hr.2 (compileForest_le rest _)⟩
    · have hr := compileForest_range rest _ p h2
      exact ⟨Nat.le_trans (compileTree_le t n) hr.1, hr.2⟩
end

mutual
/-- Traversing the compiled image of a tree from any `seen` set disjoint from
its fresh address range returns false, emits no diagnostic, and extends
`seen` with exactly addresses of the fresh range. -/
theorem isCyclicAux_tree : ∀ (t : JTree) (n : Nat) (h : Heap) (seen : List Nat)
    (path : List String) (fuel : Nat),
    (∀ p ∈ (compileTree t n).2.1, lookupObj h p.1 = p.2) →
    (∀ a ∈ seen, a < n ∨ (compileTree t n).2.2 ≤ a) →
    treeDepth t + 1 ≤ fuel →
    ∃ ns, isCyclicAux h fuel (compileTree t n).1 seen path
        = some (false, ns ++ seen, 0) ∧
      ∀ a ∈ ns, n ≤ a ∧ a < (compileTree t n).2.2
  | .leaf, n, h, seen, path, fuel => by
    intro hag hfresh hfuel
    obtain ⟨f, rfl⟩ : ∃ f, fuel = f + 1 := ⟨fuel - 1, by omega⟩
    exact ⟨[], rfl, by simp⟩
  | .node cs, n, h, seen, path, fuel => by
    intro hag hfresh hfuel
    obtain ⟨f, rfl⟩ : ∃ f, fuel = f + 1 := ⟨fuel - 1, by omega⟩
    have hle := compileForest_le cs (n + 1)
    have hnmem : n ∉ seen := by
      intro hmem
      rcases hfresh n hmem with h1 | h2
      · omega
      · have : n + 1 ≤ n := Nat.le_trans hle h2
        omega
    have hlook : lookupObj h n = (compileForest cs (n + 1)).1 :=
      hag (n, (compileForest cs (n + 1)).1) (List.mem_cons_self _ _)
    have hdep : forestDepth cs + 1 ≤ f := by
      have h' : forestDepth cs + 1 + 1 ≤ f + 1 := hfuel
      omega
    obtain ⟨ns, hrun, hns⟩ := isCyclicFields_forest cs (n + 1) h (n :: seen) path f
      (fun p hp => hag p (List.mem_cons_of_mem _ hp))
      (by
        intro a ha
        rcases List.mem_cons.mp ha with rfl | hmem
        · exact Or.inl (Nat.lt_succ_self a)
        · rcases hfresh a hmem with h1 | h2
          · exact Or.inl (Nat.lt_succ_of_lt h1)
          · exact Or.inr h2)
      hdep
    refine ⟨ns ++ [n], ?_, ?_⟩
    · have hstep : isCyclicAux h (f + 1) (HVal.ref n) seen path
          = some (false, (ns ++ [n]) ++ seen, 0) := by
        rw [show isCyclicAux h (f + 1) (HVal.ref n) seen path
            = if n ∈ seen then some (true, seen, 1)
              else isCyclicFields (isCyclicAux h f) (lookupObj h n) (n :: seen) path
            from rfl,
          if_neg hnmem, hlook, hrun]
        simp [List.append_assoc]
      exact hstep
    · intro a ha
      rcases List.mem_append.mp ha with h1 | h2
      · have hr := hns a h1
        exact ⟨by omega, hr.2⟩
      · have : a = n := by simpa using h2
        subst this
        exact ⟨Nat.le_refl a, Nat.lt_of_lt_of_le (Nat.lt_succ_self a) hle⟩

/-- Traversing the compiled children of a node (the `for...in` loop) from any
`seen` set disjoint from their fresh address range returns false, emits no
diagnostic, and extends `seen` with exactly addresses of the range. -/
theorem isCyclicFields_forest : ∀ (cs : List (String × JTree)) (n : Nat) (h : Heap)
    (seen : List Nat) (path : List String) (g : Nat),
    (∀ p ∈ (compileForest cs n).2.1, lookupObj h p.1 = p.2) →
    (∀ a ∈ seen, a < n ∨ (compileForest cs n).2.2 ≤ a) →
    forestDepth cs + 1 ≤ g →
    ∃ ns, isCyclicFields (isCyclicAux h g) (compileForest cs n).1 seen path
        = some (false, ns ++ seen, 0) ∧
      ∀ a ∈ ns, n ≤ a ∧ a < (compileForest cs n).2.2
  | [], n, h, seen, path, g => by
    intro hag hfresh hdep
    exact ⟨[], rfl, by simp⟩
  | (k, t) :: rest, n, h, seen, path, g => by
    intro hag hfresh hdep
    have hmax : treeDepth t + 1 ≤ g ∧ forestDepth rest + 1 ≤ g := by
      have h' : max (treeDepth t) (forestDepth rest) + 1 ≤ g := hdep
      omega
    obtain ⟨ns1, hrun1, hns1⟩ := isCyclicAux_tree t n h seen (path ++ [k]) g
      (fun p hp => hag p (List.mem_append_left _ hp))
      (by
        intro a ha
        rcases hfresh a ha with h1 | h2
        · exact Or.inl h1
        · exact Or.inr (Nat.le_trans (compileForest_le rest _) h2))
      hmax.1
    obtain ⟨ns2, hrun2, hns2⟩ := isCyclicFields_forest rest ((compileTree t n).2.2) h
      (ns1 ++ seen) path g
      (fun p hp => hag p (List.mem_append_right _ hp))
      (by
        intro a ha
        rcases List.mem_append.mp ha with hin1 | hinseen
        · exact Or.inl (hns1 a hin1).2
        · rcases hfresh a hinseen with h1 | h2
          · exact Or.inl (Nat.lt_of_lt_of_le h1 (compileTree_le t n))
          · exact Or.inr h2)
      hmax.2
    refine ⟨ns2 ++ ns1, ?_, ?_⟩
    · have hstep : isCyclicFields (isCyclicAux h g)
          ((k, (compileTree t n).1) :: (compileForest rest ((compileTree t n).2.2)).1)
          seen path = some (false, (ns2 ++ ns1) ++ seen, 0) := by
        simp only [isCyclicFields, hrun1, option_bind_some]
        simp [hrun2, option_bind_some, List.append_assoc]
      exact hstep
    · intro a ha
      rcases List.mem_append.mp ha with h2 | h1
      · have hr := hns2 a h2
        exact ⟨Nat.le_trans (compileTree_le t n) hr.1, hr.2⟩
      · have hr := hns1 a h1
        exact ⟨hr.1, Nat.lt_of_lt_of_le hr.2 (compileForest_le rest _)⟩
end

/-- C8: for every builder state and pure match/handler functions (all
functions of an `Env` are pure), `run()` leaves the accumulated state
unchanged, so invoking it twice without intervening `case()`/`default()`
calls yields the same result both times. -/
theorem claim_C8_run_repeatable :
    ∀ (env : Env) (value : JVal) (s : BuilderState),
      (builderRun env value s).2 = s ∧
      (builderRun env value ((builderRun env value s).2)).1
        = (builderRun env value s).1 := by
  intro env value s
  exact ⟨rfl, rfl⟩

/-! ### C9: `exhaustive()` equals `run()` -/

/-- C9: for every builder state (entries, default handler) and subject,
`exhaustive()` produces exactly what `run()` produces — including the same
NoMatch failure when no case matches and no default is set, since the results
are equal as `Except` values. -/
theorem claim_C9_exhaustive_eq_run :
    ∀ (env : Env) (value : JVal) (s : BuilderState),
      builderExhaustive env value s = builderRun env value s := by
  intro env value s
  rfl

/-! ### C1: call-shape classification -/

/-- C1 (counterexample): with a mapping second argument AND a mapping third
argument the call is NOT treated as discriminator-map mode — the second
argument itself is used as the CaseSet (here the subject 1 hits its literal
entry), refuting the claimed classification rule at this input. -/
theorem claim_C1_counterexample :
    isMapping (JVal.vObj [("1", JVal.vStr "A")]) = true ∧
    isMapping (JVal.vObj [("x", JVal.vStr "B")]) = true ∧
    classifyCall (JVal.vObj [("1", JVal.vStr "A")]) ≠ CallMode.discriminatorMode ∧
    switchCase envConstUndef (JVal.vNum 1) (JVal.vObj [("1", JVal.vStr "A")])
      (JVal.vObj [("x", JVal.vStr "B")]) JVal.vUndef
      = Except.ok (Sum.inr (JVal.vStr "A")) :=
  ⟨rfl, rfl, by decide, rfl⟩

/-- C1 (amended): the call is treated as discriminator-map mode exactly when
the second argument is none of: undefined, an array, an object-typed value —
i.e. when it is a primitive key.  Whenever the second argument is a non-array
object-typed value (in particular every mapping), it itself is the CaseSet
and the third argument is the DefaultHandler (literal/predicate map mode),
regardless of the shape of the third argument; an array second argument gives
predicate-sequence mode. -/
theorem claim_C1_call_shape :
    ∀ (env : Env) (value arg2 arg3 arg4 : JVal),
      (classifyCall arg2 = CallMode.discriminatorMode ↔
        isUndef arg2 = false ∧ isArr arg2 = false ∧ typeofObject arg2 = false) ∧
      (typeofObject arg2 = true → isArr arg2 = false →
        switchCase env value arg2 arg3 arg4
          = (objectModeEval env value arg2 arg3).map Sum.inr) ∧
      (isArr arg2 = true →
        switchCase env value arg2 arg3 arg4
          = (arrayModeEval env value arg2 arg3).map Sum.inr) ∧
      (classifyCall arg2 = CallMode.discriminatorMode →
        switchCase env value arg2 arg3 arg4
          = (discriminatorModeEval env value arg2 arg3 arg4).map Sum.inr) := by
  intro env value arg2 arg3 arg4
  cases arg2 <;>
    simp [classifyCall, isUndef, isArr, typeofObject, switchCase]

/-- C1 (witness): a primitive (string) second argument concretely selects
discriminator mode. -/
theorem claim_C1_call_shape_witness :
    switchCase envConstUndef (JVal.vNum 0) (JVal.vStr "kind") (JVal.vObj []) JVal.vUndef
      = (discriminatorModeEval envConstUndef (JVal.vNum 0) (JVal.vStr "kind")
          (JVal.vObj []) JVal.vUndef).map Sum.inr :=
  (claim_C1_call_shape envConstUndef (JVal.vNum 0) (JVal.vStr "kind")
    (JVal.vObj []) JVal.vUndef).2.2.2 (by decide)

/-! ### C2: literal fast path in object-based mode -/

/-- C2 (counterexample): a `{match, handler}` predicate pair stored under the
key equal to the stringified subject is returned literally by the fast path —
its `.handler` (function 1, which would produce "handled") is NOT invoked
with the subject, refuting the claimed resolution of predicate-pair entries
on the fast path. -/
theorem claim_C2_counterexample :
    switchCase envHandled (JVal.vNum 5) (JVal.vObj [("5", pairEntry)])
      JVal.vUndef JVal.vUndef = Except.ok (Sum.inr pairEntry) ∧
    envHandled 1 (JVal.vNum 5) = JVal.vStr "handled" ∧
    (Except.ok (Sum.inr pairEntry) : Except JsErr (BuilderState ⊕ JVal))
      ≠ Except.ok (Sum.inr (JVal.vStr "handled")) :=
  ⟨rfl, rfl, by simp [pairEntry]⟩

/-- C2 (amended): in object-based mode, if the CaseSet has an entry under the
key equal to the stringified subject whose stored value is not `undefined`,
that entry is resolved first, before any predicate entries are consulted
(even ones that would match — the result depends only on that entry): a
function entry is invoked with no arguments, and ANY other entry — including
a `{match, handler}` predicate pair — is returned literally (its `.handler`
is not invoked); in particular
`dispatch(404, \x7b200:'OK',404:'Not Found',500:'Err'\x7d)` returns
`'Not Found'`. -/
theorem claim_C2_literal_fast_path :
    (∀ (env : Env) (value defaultFn entry : JVal) (fields : List (String × JVal)),
      lookupField fields (jsToString value) = entry →
      entry ≠ JVal.vUndef →
      objectModeEval env value (JVal.vObj fields) defaultFn
        = if isFun entry then callFun env entry JVal.vUndef else Except.ok entry) ∧
    switchCase envConstUndef (JVal.vNum 404)
      (JVal.vObj [("200", JVal.vStr "OK"), ("404", JVal.vStr "Not Found"),
        ("500", JVal.vStr "Err")]) JVal.vUndef JVal.vUndef
      = Except.ok (Sum.inr (JVal.vStr "Not Found")) := by
  refine ⟨?_, rfl⟩
  intro env value defaultFn entry fields hlk hne
  cases entry <;>
    simp_all [objectModeEval, getIndex, isFun, Bind.bind, Except.bind, pure, Except.pure]

/-- C2 (witness): a function entry under the literal key is invoked with no
arguments. -/
theorem claim_C2_literal_fast_path_witness :
    objectModeEval envHandled (JVal.vNum 2) (JVal.vObj [("2", JVal.vFun 3)]) JVal.vUndef
      = if isFun (JVal.vFun 3) then callFun envHandled (JVal.vFun 3) JVal.vUndef
        else Except.ok (JVal.vFun 3) :=
  claim_C2_literal_fast_path.1 envHandled (JVal.vNum 2) JVal.vUndef (JVal.vFun 3)
    [("2", JVal.vFun 3)] rfl (by simp)

/-! ### C3: predicate-sequence (array-based) match rule -/

/-- C3 (counterexample): an entry whose `match` is the non-callable literal
42 is never compared for equality with the subject 42 — the scan calls
`match(value)` unconditionally and throws a TypeError, instead of producing
the claimed handler result 'ok'. -/
theorem claim_C3_counterexample :
    switchCase envConstUndef (JVal.vNum 42)
      (JVal.vArr [JVal.vObj [("match", JVal.vNum 42), ("handler", JVal.vStr "ok")]])
      JVal.vUndef JVal.vUndef
      = Except.error (JsErr.typeError "is not a function") ∧
    strictEq (JVal.vNum 42) (JVal.vNum 42) = true ∧
    (Except.error (JsErr.typeError "is not a function")
      : Except JsErr (BuilderState ⊕ JVal)) ≠ Except.ok (Sum.inr (JVal.vStr "ok")) :=
  ⟨rfl, rfl, by simp⟩

/-- C3 (amended): in array-based mode entries are evaluated in the given
order and each entry's `match` is ALWAYS invoked as `match(subject)` — a
non-callable `match` raises a TypeError rather than being compared for
literal equality.  The first entry whose call is truthy supplies the result:
its handler invoked with the subject when callable, else returned
literally. -/
theorem claim_C3_sequence_mode :
    (∀ (env : Env) (value defaultFn entry m hh r : JVal) (pre post : List JVal),
      arrayScan env value pre = .ok none →
      getIndex entry "match" = .ok m →
      getIndex entry "handler" = .ok hh →
      callFun env m value = .ok r →
      truthy r = true →
      arrayModeEval env value (JVal.vArr (pre ++ entry :: post)) defaultFn
        = if isFun hh then callFun env hh value else Except.ok hh) ∧
    (∀ (env : Env) (value entry m : JVal) (rest : List JVal),
      getIndex entry "match" = .ok m →
      isFun m = false →
      arrayScan env value (entry :: rest)
        = .error (.typeError "is not a function")) := by
  constructor
  · intro env value defaultFn entry m hh r pre post hpre hm hhh hc ht
    exact arrayModeEval_first_match env value defaultFn entry m hh r pre post
      hpre hm hhh hc ht
  · intro env value entry m rest hm hnf
    have hcf := callFun_not_fun env m value hnf
    cases entry <;>
      simp_all [arrayScan, getIndex, Bind.bind, Except.bind, pure, Except.pure]

/-- C3 (witness): the spec's age example — the third predicate (function 2,
`a >= 18`) matches 25 and its literal handler 'Adult' is returned. -/
theorem claim_C3_sequence_mode_witness :
    arrayModeEval envHandled (JVal.vNum 25)
      (JVal.vArr [JVal.vObj [("match", JVal.vFun 0), ("handler", JVal.vStr "Adult")]])
      JVal.vUndef
      = if isFun (JVal.vStr "Adult") then callFun envHandled (JVal.vStr "Adult") (JVal.vNum 25)
        else Except.ok (JVal.vStr "Adult") :=
  claim_C3_sequence_mode.1 envHandled (JVal.vNum 25) JVal.vUndef
    (JVal.vObj [("match", JVal.vFun 0), ("handler", JVal.vStr "Adult")])
    (JVal.vFun 0) (JVal.vStr "Adult") (JVal.vBool true) [] [] rfl rfl rfl rfl rfl

/-! ### C5: first-match-wins ordering -/

/-- C5 (counterexample): in predicate-map mode with the array-index-like
labels "2" (declared first) and "1" (declared second), both predicates match
(function 0 is constantly true) but the result comes from the LATER-declared
entry "1", because `Object.keys` iterates array-index-like keys in ascending
numeric order, not insertion order. -/
theorem claim_C5_counterexample :
    switchCase envAlwaysTrue (JVal.vStr "x")
      (JVal.vObj [("2", JVal.vObj [("match", JVal.vFun 0), ("handler", JVal.vStr "first-declared")]),
        ("1", JVal.vObj [("match", JVal.vFun 0), ("handler", JVal.vStr "second-declared")])])
      JVal.vUndef JVal.vUndef = Except.ok (Sum.inr (JVal.vStr "second-declared")) ∧
    (Except.ok (Sum.inr (JVal.vStr "second-declared"))
      : Except JsErr (BuilderState ⊕ JVal)) ≠ Except.ok (Sum.inr (JVal.vStr "first-declared")) ∧
    orderedKeys [("2", JVal.vObj [("match", JVal.vFun 0), ("handler", JVal.vStr "first-declared")]),
        ("1", JVal.vObj [("match", JVal.vFun 0), ("handler", JVal.vStr "second-declared")])]
      = ["1", "2"] :=
  ⟨rfl, by simp, rfl⟩

/-- C5 (amended): first match wins with respect to ITERATION order.  For
predicate maps the iteration order is `Object.keys` order, which equals
declaration/insertion order whenever no label is array-index-like (then an
earlier broader predicate shadows a later narrower one), but places
array-index-like labels first in ascending numeric order.  For predicate
sequences the iteration order is always the given order. -/
theorem claim_C5_first_match_wins :
    (∀ (env : Env) (value defaultFn : JVal) (fields : List (String × JVal))
      (ks1 : List String) (k : String) (ks2 : List String) (c m hh r : JVal),
      lookupField fields (jsToString value) = JVal.vUndef →
      orderedKeys fields = ks1 ++ k :: ks2 →
      scanCases env value (JVal.vObj fields) ks1 = .ok none →
      lookupField fields k = c → isFun c = false →
      getIndex c "match" = .ok m → isFun m = true →
      callFun env m value = .ok r → truthy r = true →
      getIndex c "handler" = .ok hh →
      objectModeEval env value (JVal.vObj fields) defaultFn
        = if isFun hh then callFun env hh value else Except.ok hh) ∧
    (∀ (fields : List (String × JVal)),
      (∀ k ∈ fields.map Prod.fst, isArrayIndexKey k = false) →
      orderedKeys fields = fields.map Prod.fst) ∧
    (∀ (env : Env) (value defaultFn entry m hh r : JVal) (pre post : List JVal),
      arrayScan env value pre = .ok none →
      getIndex entry "match" = .ok m →
      getIndex entry "handler" = .ok hh →
      callFun env m value = .ok r →
      truthy r = true →
      arrayModeEval env value (JVal.vArr (pre ++ entry :: post)) defaultFn
        = if isFun hh then callFun env hh value else Except.ok hh) :=
  ⟨fun env value defaultFn fields ks1 k ks2 c m hh r h1 h2 h3 h4 h5 h6 h7 h8 h9 h10 =>
    objectModeEval_first_match env value defaultFn fields ks1 k ks2 c m hh r
      h1 h2 h3 h4 h5 h6 h7 h8 h9 h10,
   fun fields h => orderedKeys_no_index fields h,
   fun env value defaultFn entry m hh r pre post h1 h2 h3 h4 h5 =>
    arrayModeEval_first_match env value defaultFn entry m hh r pre post
      h1 h2 h3 h4 h5⟩

/-- C5 (witness): with the non-index labels "isAdmin" (broad, declared first)
and "isPremium" (also matching), the first-declared entry's handler
(function 1) wins. -/
theorem claim_C5_first_match_wins_witness :
    objectModeEval envAlwaysTrue (JVal.vStr "alice")
      (JVal.vObj [("isAdmin", JVal.vObj [("match", JVal.vFun 0), ("handler", JVal.vFun 1)]),
        ("isPremium", JVal.vObj [("match", JVal.vFun 0), ("handler", JVal.vFun 2)])])
      JVal.vUndef
      = if isFun (JVal.vFun 1) then callFun envAlwaysTrue (JVal.vFun 1) (JVal.vStr "alice")
        else Except.ok (JVal.vFun 1) :=
  claim_C5_first_match_wins.1 envAlwaysTrue (JVal.vStr "alice") JVal.vUndef
    [("isAdmin", JVal.vObj [("match", JVal.vFun 0), ("handler", JVal.vFun 1)]),
      ("isPremium", JVal.vObj [("match", JVal.vFun 0), ("handler", JVal.vFun 2)])]
    [] "isAdmin" ["isPremium"]
    (JVal.vObj [("match", JVal.vFun 0), ("handler", JVal.vFun 1)])
    (JVal.vFun 0) (JVal.vFun 1) (JVal.vBool true)
    rfl rfl rfl rfl rfl rfl rfl rfl rfl rfl

/-! ### C6: NoMatch failure messages -/

/-- C10 (counterexample): in object-based mode with the CaseSet
`\x7b"5": undefined\x7d`, subject 5 and a default handler, the literal fast
path is skipped but the subsequent predicate scan reads `.match` of the
undefined entry and throws a TypeError — the default handler is NOT invoked,
so the undefined entry is not handled like an absent key. -/
theorem claim_C10_counterexample :
    switchCase envConstUndef (JVal.vNum 5) (JVal.vObj [("5", JVal.vUndef)])
      (JVal.vFun 0) JVal.vUndef
      = .error (.typeError "Cannot read properties of undefined") ∧
    (Except.error (JsErr.typeError "Cannot read properties of undefined")
      : Except JsErr (BuilderState ⊕ JVal))
      ≠ .ok (.inr (envConstUndef 0 (JVal.vNum 5))) :=
  ⟨rfl, by simp [envConstUndef]⟩

/-- C10 (amended): an entry stored as `undefined` reads exactly like an
absent key (first conjunct).  In discriminator mode this makes it genuinely
indistinguishable from an absent key: the DefaultHandler/NoMatch path is
taken (second conjunct, whose lookup hypothesis covers both cases).  In
object-based mode the literal fast path is likewise skipped and evaluation
falls through to the predicate scan (third conjunct) — but when the scan
reaches the key holding `undefined` it reads `.match` of `undefined` and
raises a TypeError instead of continuing to the default/NoMatch path (fourth
conjunct), so there the two are not behaviourally equivalent. -/
theorem claim_C10_undefined_entry :
    (∀ (k : String) (rest : List (String × JVal)),
      lookupField ((k, JVal.vUndef) :: rest) k = JVal.vUndef ∧
      lookupField [] k = JVal.vUndef) ∧
    (∀ (env : Env) (value dk d dvRaw : JVal) (cfields : List (String × JVal)),
      classifyCall dk = CallMode.discriminatorMode →
      getIndex value (jsToString dk) = .ok dvRaw →
      lookupField cfields (jsToString dvRaw) = JVal.vUndef →
      switchCase env value dk (JVal.vObj cfields) d
        = ((if truthy d then callFun env d value
            else .error (.noMatch ("No matching case for " ++ jsToString dk
              ++ ": " ++ jsToString dvRaw))).map Sum.inr)) ∧
    (∀ (env : Env) (value d : JVal) (fields : List (String × JVal)),
      lookupField fields (jsToString value) = JVal.vUndef →
      objectModeEval env value (JVal.vObj fields) d
        = (do
          let r ← scanCases env value (JVal.vObj fields) (orderedKeys fields)
          match r with
          | some v => pure v
          | none =>
            if truthy d then callFun env d value
            else .error (.noMatch ("No matching case for value: "
              ++ jsonStringify value)))) ∧
    (∀ (env : Env) (value cases : JVal) (ks1 : List String) (k : String)
      (ks2 : List String),
      scanCases env value cases ks1 = .ok none →
      getIndex cases k = .ok JVal.vUndef →
      scanCases env value cases (ks1 ++ k :: ks2)
        = .error (.typeError "Cannot read properties of undefined")) := by
  refine ⟨?_, ?_, ?_, ?_⟩
  · intro k rest
    constructor
    · simp [lookupField]
    · simp [lookupField]
  · intro env value dk d dvRaw cfields hcls hv hlk
    have h := discriminatorModeEval_no_match env value dk d cfields dvRaw hv hlk
    cases dk <;>
      simp_all [classifyCall, switchCase, isUndef, isArr, typeofObject]
  · intro env value d fields hfast
    simp only [objectModeEval, getIndex_obj]
    rw [hfast, except_bind_ok]
    rfl
  · intro env value cases ks1 k ks2 hpre hck
    rw [scanCases_append env value cases ks1 (k :: ks2) hpre]
    simp only [scanCases]
    rw [hck, except_bind_ok, if_neg (by simp [isFun]),
      show getIndex JVal.vUndef "match"
        = (.error (.typeError "Cannot read properties of undefined")
          : Except JsErr JVal) from rfl,
      except_bind_error]

/-- C10 (witness): discriminator mode with the case map storing `undefined`
under the discriminator value "triangle" takes the default-handler path. -/
theorem claim_C10_undefined_entry_witness :
    switchCase envMark (JVal.vObj [("kind", JVal.vStr "triangle")]) (JVal.vStr "kind")
      (JVal.vObj [("triangle", JVal.vUndef), ("circle", JVal.vStr "Circle")])
      (JVal.vFun 3)
      = ((if truthy (JVal.vFun 3)
          then callFun envMark (JVal.vFun 3) (JVal.vObj [("kind", JVal.vStr "triangle")])
          else .error (.noMatch ("No matching case for " ++ jsToString (JVal.vStr "kind")
            ++ ": " ++ jsToString (JVal.vStr "triangle")))).map Sum.inr) :=
  claim_C10_undefined_entry.2.1 envMark (JVal.vObj [("kind", JVal.vStr "triangle")])
    (JVal.vStr "kind") (JVal.vFun 3) (JVal.vStr "triangle")
    [("triangle", JVal.vUndef), ("circle", JVal.vStr "Circle")] (by decide) rfl rfl

/-! ### C4: the cycle guard -/

/-- C4 (counterexample): the diamond heap is acyclic — neither object 0 nor
object 1 is reachable from itself (the reachable-address sets from their
successors are `[1]` and `[]`) — yet `isCyclic` returns true and emits one
diagnostic, because the second sibling reference to the shared child finds it
already in the traversal-wide seen set. -/
theorem claim_C4_counterexample :
    isCyclic diamondHeap 4 (.ref 0) = some (true, 1) ∧
    lookupObj diamondHeap 0 = [("a", .ref 1), ("b", .ref 1)] ∧
    lookupObj diamondHeap 1 = [("c", .prim)] ∧
    ¬(0 ∈ reachSet diamondHeap 2 (succs diamondHeap 0)) ∧
    ¬(1 ∈ reachSet diamondHeap 2 (succs diamondHeap 1)) :=
  ⟨rfl, rfl, rfl, by decide, by decide⟩

/-- C4 (amended): `isCyclic` returns false (with no diagnostic) for every
acyclic structure in which no object is shared between two paths — i.e. every
structure laid out as the compiled image of a tree, in any heap agreeing with
that layout (first conjunct).  It returns true with exactly one diagnostic as
soon as the traversal meets an object already in the seen set: in particular
any object whose first enumerated property references the object itself
(second conjunct), but also diamond-shaped shared references in acyclic
structures (third conjunct), so "returns true" is NOT equivalent to "some
object is reachable from itself". -/
theorem claim_C4_cycle_guard :
    (∀ (t : JTree) (h : Heap) (v : HVal) (objs : Heap) (n' fuel : Nat),
      compileTree t 0 = (v, objs, n') →
      (∀ p ∈ objs, lookupObj h p.1 = p.2) →
      treeDepth t + 1 ≤ fuel →
      isCyclic h fuel v = some (false, 0)) ∧
    (∀ (h : Heap) (a : Nat) (k : String) (rest : List (String × HVal)) (fuel : Nat),
      lookupObj h a = (k, .ref a) :: rest →
      isCyclic h (fuel + 2) (.ref a) = some (true, 1)) ∧
    isCyclic diamondHeap 4 (.ref 0) = some (true, 1) := by
  refine ⟨?_, ?_, rfl⟩
  · intro t h v objs n' fuel hcomp hag hfuel
    obtain ⟨ns, hrun, _⟩ := isCyclicAux_tree t 0 h [] ["root"] fuel
      (by
        intro p hp
        rw [hcomp] at hp
        exact hag p hp)
      (by intro a ha; exact absurd ha (List.not_mem_nil a))
      hfuel
    rw [show (compileTree t 0).1 = v from by rw [hcomp]] at hrun
    simp [isCyclic, hrun]
  · intro h a k rest fuel hlook
    simp only [isCyclic]
    rw [show isCyclicAux h (fuel + 2) (HVal.ref a) [] ["root"]
        = if a ∈ ([] : List Nat) then some (true, [], 1)
          else isCyclicFields (isCyclicAux h (fuel + 1)) (lookupObj h a)
            (a :: []) ["root"] from rfl,
      if_neg (List.not_mem_nil a), hlook]
    have hinner : isCyclicAux h (fuel + 1) (HVal.ref a) [a] ["root", k]
        = some (true, [a], 1) := by
      rw [show isCyclicAux h (fuel + 1) (HVal.ref a) [a] ["root", k]
          = if a ∈ [a] then some (true, [a], 1)
            else isCyclicFields (isCyclicAux h fuel) (lookupObj h a)
              (a :: [a]) ["root", k] from rfl,
        if_pos (List.mem_singleton.mpr rfl)]
    simp [isCyclicFields, hinner, option_bind_some]

/-- C4 (witness): a concrete one-node tree, laid out at address 0 in a
matching heap, is reported acyclic. -/
theorem claim_C4_cycle_guard_witness :
    isCyclic [(0, [("a", HVal.prim)])] 2 (.ref 0) = some (false, 0) :=
  claim_C4_cycle_guard.1 (.node [("a", .leaf)]) [(0, [("a", HVal.prim)])]
    (.ref 0) [(0, [("a", HVal.prim)])] 1 2 rfl (by decide) (by decide)

end TsSwitchCase
